import Mathlib

/-!
# Verification of the `log_parser` expression compiler and matchers

A shallow embedding of `src/log_parser.py`.  Strings are modelled as
`List Char`; Python character classes (`\w`, `\s`, `str.lower`) are modelled
over ASCII, which covers every input the development reasons about.
Python exceptions are modelled by an error type carried in `Except`.
-/

namespace LogParser

/-- The ASCII whitespace characters recognised by Python's `\s` class and by
`str.strip` / `str.rstrip` (restricted to ASCII). -/
def isPySpace (c : Char) : Bool :=
  c = ' ' || c = '\t' || c = '\n' || c = '\r' || c = '\x0b' || c = '\x0c'

/-- Python regex word character `\w` (ASCII): alphanumeric or underscore. -/
def isWordChar (c : Char) : Bool :=
  c.isAlphanum || c = '_'

/-- Model of Python `str.lower` (ASCII). -/
def pyLower (s : List Char) : List Char :=
  s.map Char.toLower

/-- Model of Python's substring test `needle in hay`: scan every suffix of
`hay` for `needle` as a prefix. -/
def pyContains (needle : List Char) : List Char → Bool
  | [] => needle.isPrefixOf []
  | c :: t => needle.isPrefixOf (c :: t) || pyContains needle t

/-- Model of Python `str.rstrip()`: remove all trailing whitespace. -/
def pyRstrip (s : List Char) : List Char :=
  (s.reverse.dropWhile isPySpace).reverse

/-- Expression-tree nodes (`KeywordNode`, `AndNode`, `OrNode`, `NotNode` in
`log_parser.py`). -/
inductive ExprNode : Type
  | keyword (k : List Char)
  | and (left right : ExprNode)
  | or (left right : ExprNode)
  | not (child : ExprNode)
  deriving DecidableEq, Repr

/-- The `evaluate` methods of the node classes: a keyword node tests
substring containment (lowercasing both sides when `ignore_case`), the
connective nodes combine the children's results. -/
def ExprNode.evaluate : ExprNode → List Char → Bool → Bool
  | .keyword k, line, ignoreCase =>
      if ignoreCase then pyContains (pyLower k) (pyLower line)
      else pyContains k line
  | .and l r, line, ignoreCase => l.evaluate line ignoreCase && r.evaluate line ignoreCase
  | .or l r, line, ignoreCase => l.evaluate line ignoreCase || r.evaluate line ignoreCase
  | .not c, line, ignoreCase => !c.evaluate line ignoreCase

/-! ## Tokenizer (`ExpressionParser.__init__`)

The constructor rewrites the expression string with five `re.sub` passes and
then splits it with `re.findall`.  Each pass is modelled by a left-to-right
scanner over the character list, matching `re.sub`'s non-overlapping
left-to-right replacement discipline. -/

/-- The `\b` condition on the character preceding a word match: no previous
character, or a non-word character. -/
def prevOk : Option Char → Bool
  | none => true
  | some c => !isWordChar c

/-- The `\b` condition on the character following a word match: end of the
string, or a non-word character. -/
def nextOk : List Char → Bool
  | [] => true
  | c :: _ => !isWordChar c

/-- `re.sub(r'\bAND\b', '&&', expr, flags=re.IGNORECASE)`: scanner carrying
the previously scanned character (for the left word boundary). -/
def replAndAux (prev : Option Char) : List Char → List Char
  | c1 :: c2 :: c3 :: rest =>
      if c1.toLower = 'a' ∧ c2.toLower = 'n' ∧ c3.toLower = 'd' ∧
          prevOk prev = true ∧ nextOk rest = true then
        '&' :: '&' :: replAndAux (some c3) rest
      else
        c1 :: replAndAux (some c1) (c2 :: c3 :: rest)
  | c :: rest => c :: replAndAux (some c) rest
  | [] => []

/-- `re.sub(r'\bOR\b', '||', expr, flags=re.IGNORECASE)`. -/
def replOrAux (prev : Option Char) : List Char → List Char
  | c1 :: c2 :: rest =>
      if c1.toLower = 'o' ∧ c2.toLower = 'r' ∧
          prevOk prev = true ∧ nextOk rest = true then
        '|' :: '|' :: replOrAux (some c2) rest
      else
        c1 :: replOrAux (some c1) (c2 :: rest)
  | c :: rest => c :: replOrAux (some c) rest
  | [] => []

/-- `re.sub(r'\bNOT\b', '!', expr, flags=re.IGNORECASE)`. -/
def replNotAux (prev : Option Char) : List Char → List Char
  | c1 :: c2 :: c3 :: rest =>
      if c1.toLower = 'n' ∧ c2.toLower = 'o' ∧ c3.toLower = 't' ∧
          prevOk prev = true ∧ nextOk rest = true then
        '!' :: replNotAux (some c3) rest
      else
        c1 :: replNotAux (some c1) (c2 :: c3 :: rest)
  | c :: rest => c :: replNotAux (some c) rest
  | [] => []

def replAnd (s : List Char) : List Char := replAndAux none s
def replOr (s : List Char) : List Char := replOrAux none s
def replNot (s : List Char) : List Char := replNotAux none s

/-- `re.sub(r'([!()])', r' \1 ', expr)`: pad each `!`, `(`, `)` with spaces. -/
def spaceSingles : List Char → List Char
  | [] => []
  | c :: rest =>
      if c = '!' ∨ c = '(' ∨ c = ')' then ' ' :: c :: ' ' :: spaceSingles rest
      else c :: spaceSingles rest

/-- `re.sub(r'(\|\|)', r' \1 ', expr)` and `re.sub(r'(&&)', r' \1 ', expr)`:
pad each non-overlapping occurrence of the doubled character `a` with
spaces. -/
def spacePairs (a : Char) : List Char → List Char
  | c1 :: c2 :: rest =>
      if c1 = a ∧ c2 = a then ' ' :: a :: a :: ' ' :: spacePairs a rest
      else c1 :: spacePairs a (c2 :: rest)
  | [c] => [c]
  | [] => []

/-- `re.sub(r'\s+', ' ', expr)`: collapse whitespace runs to single spaces;
the flag records whether the previous character was whitespace. -/
def collapseWsAux (inSpace : Bool) : List Char → List Char
  | [] => []
  | c :: rest =>
      if isPySpace c then
        if inSpace then collapseWsAux true rest
        else ' ' :: collapseWsAux true rest
      else c :: collapseWsAux false rest

def collapseWs (s : List Char) : List Char := collapseWsAux false s

/-- Model of Python `str.strip()`: remove leading and trailing whitespace. -/
def pyStrip (s : List Char) : List Char :=
  ((s.dropWhile isPySpace).reverse.dropWhile isPySpace).reverse

/-- The keyword-character class of the token pattern: `[^\s!()|&]`. -/
def isKeywordChar (c : Char) : Bool :=
  !(isPySpace c || c = '!' || c = '(' || c = ')' || c = '|' || c = '&')

/-- Prepend the pending keyword run (accumulated in reverse) as a token, if
it is nonempty. -/
def flushTok (acc : List Char) (toks : List (List Char)) : List (List Char) :=
  match acc with
  | [] => toks
  | _ :: _ => acc.reverse :: toks

/-- `re.findall(r'!|\|\||&&|\(|\)|[^\s!()|&]+', expr)`: scan left to right,
emitting operator tokens and maximal keyword-character runs, skipping
unmatched characters (whitespace, lone `|`, lone `&`).  `acc` holds the
keyword run in progress, reversed. -/
def findTokensAux (acc : List Char) : List Char → List (List Char)
  | [] => flushTok acc []
  | c :: rest =>
      if isKeywordChar c then findTokensAux (c :: acc) rest
      else flushTok acc
        (if c = '!' ∨ c = '(' ∨ c = ')' then [c] :: findTokensAux [] rest
        else if c = '|' then
          match rest with
          | c2 :: rest2 =>
              if c2 = '|' then ['|', '|'] :: findTokensAux [] rest2
              else findTokensAux [] (c2 :: rest2)
          | [] => []
        else if c = '&' then
          match rest with
          | c2 :: rest2 =>
              if c2 = '&' then ['&', '&'] :: findTokensAux [] rest2
              else findTokensAux [] (c2 :: rest2)
          | [] => []
        else findTokensAux [] rest)

def findTokens (s : List Char) : List (List Char) := findTokensAux [] s

/-- The whole tokenizer of `ExpressionParser.__init__`: word-operator
rewriting, operator padding, whitespace normalisation, then token
extraction. -/
def tokenizeExpr (s : List Char) : List (List Char) :=
  findTokens (pyStrip (collapseWs
    (spacePairs '&' (spacePairs '|' (spaceSingles (replNot (replOr (replAnd s))))))))

/-! ## Recursive-descent parser (`ExpressionParser.parse` and helpers)

The Python parser walks the token list with a cursor.  It is modelled by
functions from the remaining token list to `Except` of (node, rest), with a
fuel argument to justify termination; fuel `length + 1` is always enough
because fuel is only spent after consuming a token.

`_parse_primary`'s parenthesis branch calls `self._expect(')')`, but the
class defines no `_expect` method, so after the inner expression parses the
attribute lookup raises `AttributeError`; an error from the inner parse
propagates first.  The model reproduces this. -/

abbrev Tok := List Char

def orTok : Tok := ['|', '|']
def andTok : Tok := ['&', '&']
def bangTok : Tok := ['!']
def lparenTok : Tok := ['(']

/-- Python exceptions the parser can raise.  `fuelExhausted` is an artefact
of the fuel-based model and is never produced with enough fuel. -/
inductive PyError : Type
  | valueError (msg : List Char)
  | attributeError (msg : List Char)
  | fuelExhausted
  deriving DecidableEq, Repr

def unexpectedEndMsg : List Char := "Unexpected end of expression".data

def missingExpectMsg : List Char :=
  "'ExpressionParser' object has no attribute '_expect'".data

abbrev PResult := Except PyError (ExprNode × List Tok)

/-- Which parser method is running: `_parse_or`, its `while` loop (with the
node built so far), `_parse_and`, its loop, `_parse_not`, or
`_parse_primary`. -/
inductive PMode : Type
  | or
  | orLoop (acc : ExprNode)
  | and
  | andLoop (acc : ExprNode)
  | not
  | primary
  deriving DecidableEq, Repr

/-- One engine for the mutually recursive parser methods, structurally
recursive on fuel (every recursive call spends one unit; `parseToks` supplies
enough for any input).

`_parse_primary`'s parenthesis branch first parses the inner expression
(errors propagate), then evaluates `self._expect`, an attribute the class
does not define, raising `AttributeError`; any other token is consumed as a
keyword; an empty cursor raises
`ValueError("Unexpected end of expression")` from `_consume`. -/
def parseStep (f : Nat) (m : PMode) (ts : List Tok) : PResult :=
  match f with
  | 0 => .error .fuelExhausted
  | f + 1 =>
      match m, ts with
      | .or, ts =>
          match parseStep f .and ts with
          | .error e => .error e
          | .ok (n, r) => parseStep f (.orLoop n) r
      | .orLoop n, [] => .ok (n, [])
      | .orLoop n, t :: r' =>
          if t = orTok then
            match parseStep f .and r' with
            | .error e => .error e
            | .ok (n', r'') => parseStep f (.orLoop (.or n n')) r''
          else .ok (n, t :: r')
      | .and, ts =>
          match parseStep f .not ts with
          | .error e => .error e
          | .ok (n, r) => parseStep f (.andLoop n) r
      | .andLoop n, [] => .ok (n, [])
      | .andLoop n, t :: r' =>
          if t = andTok then
            match parseStep f .not r' with
            | .error e => .error e
            | .ok (n', r'') => parseStep f (.andLoop (.and n n')) r''
          else .ok (n, t :: r')
      | .not, [] => parseStep f .primary []
      | .not, t :: r =>
          if t = bangTok then
            match parseStep f .not r with
            | .error e => .error e
            | .ok (n, r') => .ok (.not n, r')
          else parseStep f .primary (t :: r)
      | .primary, [] => .error (.valueError unexpectedEndMsg)
      | .primary, t :: r =>
          if t = lparenTok then
            match parseStep f .or r with
            | .error e => .error e
            | .ok _ => .error (.attributeError missingExpectMsg)
          else .ok (.keyword t, r)

/-- Fuel that always suffices: nesting grows by at most four levels per
consumed token. -/
def parseFuel (ts : List Tok) : Nat := 4 * ts.length + 8

/-- `ExpressionParser.parse` on an already-tokenized input: run `_parse_or`
from the start and keep only the node (the cursor need not be at the end). -/
def parseToks (ts : List Tok) : Except PyError ExprNode :=
  match parseStep (parseFuel ts) .or ts with
  | .error e => .error e
  | .ok (n, _) => .ok n

/-- `ExpressionParser(expr).parse()`: tokenize, then parse. -/
def parseExprString (s : List Char) : Except PyError ExprNode :=
  parseToks (tokenizeExpr s)

/-! ## Matchers -/

/-- `MatcherExpression.match_line`: evaluate the compiled trees in list
order; the first tree that evaluates true yields `line.rstrip()`. -/
def matchLineExpr (trees : List ExprNode) (ignoreCase : Bool)
    (line : List Char) : Option (List Char) :=
  match trees with
  | [] => none
  | t :: ts =>
      if t.evaluate line ignoreCase then some (pyRstrip line)
      else matchLineExpr ts ignoreCase line

/-- `MatcherExpression.__init__`: compile every expression up front,
propagating the first parse failure. -/
def matcherExpressionInit (exprs : List (List Char)) :
    Except PyError (List ExprNode) :=
  exprs.mapM parseExprString

/-- Modelled from the spec's words, for comparison with the code's
`line.rstrip()`: remove exactly the trailing line-terminator characters of a
line and nothing else. -/
def specStripLineTerminators (s : List Char) : List Char :=
  (s.reverse.dropWhile (fun c => c = '\n' || c = '\r')).reverse

/-! ## Regex matcher (`MatcherRegex`)

`MatcherRegex.__init__` joins the parenthesized patterns with `|` and hands
the combined string to the regular-expression engine at construction time;
a compilation failure (`re.PatternError`, carrying the combined pattern)
propagates out of the constructor.  The engine is an external collaborator;
it is modelled here on the fragment the development needs: literal
characters, groups and alternation, with unbalanced parentheses as the
malformed case.  `match_line` reports a match if the compiled pattern
matches anywhere in the line (unanchored search). -/

/-- Abstract syntax of the modelled regular-expression fragment. -/
inductive Reg : Type
  | eps
  | chr (c : Char)
  | cat (a b : Reg)
  | alt (a b : Reg)
  deriving DecidableEq, Repr

/-- Compilation failures of the modelled engine (`fuelOut` is a model
artefact). -/
inductive RegexErr : Type
  | missingParen
  | unbalancedParen
  | fuelOut
  deriving DecidableEq, Repr

/-- Which engine-compiler rule is running: alternation, its loop, a
concatenation loop, or a single atom. -/
inductive RMode : Type
  | alt
  | altLoop (acc : Reg)
  | catLoop (acc : Reg)
  | atom
  deriving DecidableEq, Repr

/-- Recursive-descent pattern compiler of the modelled engine, structurally
recursive on fuel.  An unclosed group is the missing-parenthesis failure. -/
def reStep (f : Nat) (m : RMode) (s : List Char) :
    Except RegexErr (Reg × List Char) :=
  match f with
  | 0 => .error .fuelOut
  | f + 1 =>
      match m, s with
      | .alt, s =>
          match reStep f (.catLoop .eps) s with
          | .error e => .error e
          | .ok (r, rest) => reStep f (.altLoop r) rest
      | .altLoop acc, '|' :: s' =>
          match reStep f (.catLoop .eps) s' with
          | .error e => .error e
          | .ok (r, rest) => reStep f (.altLoop (.alt acc r)) rest
      | .altLoop acc, s => .ok (acc, s)
      | .catLoop acc, [] => .ok (acc, [])
      | .catLoop acc, c :: s' =>
          if c = ')' ∨ c = '|' then .ok (acc, c :: s')
          else
            match reStep f .atom (c :: s') with
            | .error e => .error e
            | .ok (r, rest) => reStep f (.catLoop (.cat acc r)) rest
      | .atom, [] => .error .fuelOut
      | .atom, c :: s' =>
          if c = '(' then
            match reStep f .alt s' with
            | .error e => .error e
            | .ok (r, rest) =>
                match rest with
                | ')' :: rest' => .ok (r, rest')
                | _ => .error .missingParen
          else .ok (.chr c, s')

/-- Compile a pattern string: parse a full alternation; a leftover `)` is
the unbalanced-parenthesis failure. -/
def reCompile (p : List Char) : Except RegexErr Reg :=
  match reStep (4 * p.length + 8) .alt p with
  | .error e => .error e
  | .ok (r, []) => .ok r
  | .ok (_, _ :: _) => .error .unbalancedParen

/-- Does `r` match a prefix of `s` whose remainder satisfies `k`? -/
def Reg.matchCont : Reg → List Char → (List Char → Bool) → Bool
  | .eps, s, k => k s
  | .chr c, s, k =>
      match s with
      | [] => false
      | c' :: s' => c' = c && k s'
  | .cat a b, s, k => a.matchCont s fun s' => b.matchCont s' k
  | .alt a b, s, k => a.matchCont s k || b.matchCont s k

/-- Unanchored search: try a match at every suffix of `s`. -/
def reSearch (r : Reg) : List Char → Bool
  | [] => r.matchCont [] fun _ => true
  | c :: s' => r.matchCont (c :: s') (fun _ => true) || reSearch r s'

/-- `'|'.join(f'({p})' for p in patterns)`. -/
def combinedPattern : List (List Char) → List Char
  | [] => []
  | [p] => '(' :: (p ++ [')'])
  | p :: ps => '(' :: (p ++ [')']) ++ '|' :: combinedPattern ps

/-- `re.PatternError` as raised out of `MatcherRegex.__init__`: the engine's
failure, carrying the pattern string handed to `re.compile`. -/
structure PatternError : Type where
  err : RegexErr
  pattern : List Char
  deriving DecidableEq, Repr

/-- A constructed `MatcherRegex`: the compiled pattern plus its source. -/
structure MatcherRegex : Type where
  pattern : Reg
  source : List Char
  deriving DecidableEq, Repr

/-- `MatcherRegex.__init__`: compile the combined alternation immediately. -/
def matcherRegexInit (pats : List (List Char)) :
    Except PatternError MatcherRegex :=
  match reCompile (combinedPattern pats) with
  | .error e => .error ⟨e, combinedPattern pats⟩
  | .ok r => .ok ⟨r, combinedPattern pats⟩

/-- `MatcherRegex.match_line`. -/
def MatcherRegex.matchLine (m : MatcherRegex) (line : List Char) :
    Option (List Char) :=
  if reSearch m.pattern line then some (pyRstrip line) else none

/-! ## Lemmas -/

theorem pyContains_iff_infix (needle hay : List Char) :
    pyContains needle hay = true ↔ needle <:+: hay := by
  induction hay with
  | nil =>
      simp [pyContains, List.isPrefixOf_iff_prefix, List.infix_nil]
  | cons c t ih =>
      simp [pyContains, Bool.or_eq_true, ih, List.infix_cons_iff,
        List.isPrefixOf_iff_prefix]

/-! ## Definitional stepping lemmas for the parser engine -/

theorem parseStep_zero (m : PMode) (ts : List Tok) :
    parseStep 0 m ts = .error .fuelExhausted := rfl

theorem parseStep_or (f : Nat) (ts : List Tok) :
    parseStep (f + 1) .or ts =
      (match parseStep f .and ts with
      | .error e => .error e
      | .ok (n, r) => parseStep f (.orLoop n) r) := rfl

theorem parseStep_orLoop_nil (f : Nat) (n : ExprNode) :
    parseStep (f + 1) (.orLoop n) [] = .ok (n, []) := rfl

theorem parseStep_orLoop_cons (f : Nat) (n : ExprNode) (t : Tok) (r' : List Tok) :
    parseStep (f + 1) (.orLoop n) (t :: r') =
      (if t = orTok then
        match parseStep f .and r' with
        | .error e => .error e
        | .ok (n', r'') => parseStep f (.orLoop (.or n n')) r''
      else .ok (n, t :: r')) := rfl

theorem parseStep_and (f : Nat) (ts : List Tok) :
    parseStep (f + 1) .and ts =
      (match parseStep f .not ts with
      | .error e => .error e
      | .ok (n, r) => parseStep f (.andLoop n) r) := rfl

theorem parseStep_andLoop_nil (f : Nat) (n : ExprNode) :
    parseStep (f + 1) (.andLoop n) [] = .ok (n, []) := rfl

theorem parseStep_andLoop_cons (f : Nat) (n : ExprNode) (t : Tok) (r' : List Tok) :
    parseStep (f + 1) (.andLoop n) (t :: r') =
      (if t = andTok then
        match parseStep f .not r' with
        | .error e => .error e
        | .ok (n', r'') => parseStep f (.andLoop (.and n n')) r''
      else .ok (n, t :: r')) := rfl

theorem parseStep_not_nil (f : Nat) :
    parseStep (f + 1) .not [] = parseStep f .primary [] := rfl

theorem parseStep_not_cons (f : Nat) (t : Tok) (r : List Tok) :
    parseStep (f + 1) .not (t :: r) =
      (if t = bangTok then
        match parseStep f .not r with
        | .error e => .error e
        | .ok (n, r') => .ok (.not n, r')
      else parseStep f .primary (t :: r)) := rfl

theorem parseStep_primary_nil (f : Nat) :
    parseStep (f + 1) .primary [] = .error (.valueError unexpectedEndMsg) := rfl

theorem parseStep_primary_cons (f : Nat) (t : Tok) (r : List Tok) :
    parseStep (f + 1) .primary (t :: r) =
      (if t = lparenTok then
        match parseStep f .or r with
        | .error e => .error e
        | .ok _ => .error (.attributeError missingExpectMsg)
      else .ok (.keyword t, r)) := rfl

theorem orTok_ne_andTok : orTok ≠ andTok := by decide

/-! ## Helper lemmas about the matchers -/

theorem matchLineExpr_eq_if (trees : List ExprNode) (ic : Bool) (line : List Char) :
    matchLineExpr trees ic line =
      if trees.any (fun t => t.evaluate line ic) then some (pyRstrip line)
      else none := by
  induction trees with
  | nil => simp [matchLineExpr]
  | cons t ts ih =>
      by_cases h : t.evaluate line ic = true
      · simp [matchLineExpr, h]
      · simp only [Bool.not_eq_true] at h
        simp [matchLineExpr, h, ih]

theorem pyRstrip_append_ws (line : List Char) :
    line = pyRstrip line ++ (line.reverse.takeWhile isPySpace).reverse := by
  have h := List.takeWhile_append_dropWhile (p := isPySpace) (l := line.reverse)
  calc line = line.reverse.reverse := line.reverse_reverse.symm
    _ = (List.takeWhile isPySpace line.reverse ++
          List.dropWhile isPySpace line.reverse).reverse := by rw [h]
    _ = (List.dropWhile isPySpace line.reverse).reverse ++
          (List.takeWhile isPySpace line.reverse).reverse := by
            rw [List.reverse_append]
    _ = pyRstrip line ++ (line.reverse.takeWhile isPySpace).reverse := rfl

theorem pyRstrip_ws_all_space (line : List Char) :
    ∀ c ∈ (line.reverse.takeWhile isPySpace).reverse, isPySpace c = true := by
  intro c hc
  rw [List.mem_reverse] at hc
  exact List.mem_takeWhile_imp hc

theorem pyRstrip_getLast_not_space (line : List Char) (c : Char)
    (hc : (pyRstrip line).getLast? = some c) : isPySpace c = false := by
  unfold pyRstrip at hc
  rw [List.getLast?_reverse] at hc
  have h := List.head?_dropWhile_not isPySpace line.reverse
  rw [hc] at h
  exact h

theorem reSearch_iff_suffix (r : Reg) (s : List Char) :
    reSearch r s = true ↔
      ∃ s', s' <:+ s ∧ r.matchCont s' (fun _ => true) = true := by
  induction s with
  | nil =>
      simp only [reSearch]
      constructor
      · intro h; exact ⟨[], List.suffix_refl [], h⟩
      · rintro ⟨s', hs', h⟩
        rw [List.suffix_nil] at hs'
        subst hs'; exact h
  | cons c t ih =>
      simp only [reSearch, Bool.or_eq_true, ih]
      constructor
      · rintro (h | ⟨s', hs', h⟩)
        · exact ⟨c :: t, List.suffix_refl _, h⟩
        · exact ⟨s', hs'.trans (List.suffix_cons c t), h⟩
      · rintro ⟨s', hs', h⟩
        rcases List.suffix_cons_iff.mp hs' with heq | hs'
        · subst heq; exact Or.inl h
        · exact Or.inr ⟨s', hs', h⟩

theorem mem_infix_combinedPattern (pats : List (List Char)) (p : List Char)
    (hp : p ∈ pats) : p <:+: combinedPattern pats := by
  induction pats with
  | nil => cases hp
  | cons q ps ih =>
      rcases List.mem_cons.mp hp with rfl | hp'
      · cases ps with
        | nil => exact ⟨['('], [')'], rfl⟩
        | cons q' ps' =>
            refine ⟨['('], [')'] ++ '|' :: combinedPattern (q' :: ps'), ?_⟩
            simp [combinedPattern]
      · have hfix := ih hp'
        cases ps with
        | nil => cases hp'
        | cons q' ps' =>
            have : combinedPattern (q' :: ps') <:+:
                combinedPattern (q :: q' :: ps') := by
              refine ⟨'(' :: (q ++ [')']) ++ ['|'], [], ?_⟩
              simp [combinedPattern]
            exact hfix.trans this

/-! ## Appending tokens after a fully parsed expression -/

theorem parseStep_orLoop_nil_ok (f : Nat) (n t : ExprNode) (rem : List Tok)
    (h : parseStep f (.orLoop n) [] = .ok (t, rem)) : t = n ∧ rem = [] := by
  cases f with
  | zero => simp [parseStep_zero] at h
  | succ f =>
      rw [parseStep_orLoop_nil] at h
      simp only [Except.ok.injEq, Prod.mk.injEq] at h
      exact ⟨h.1.symm, h.2.symm⟩

theorem parseStep_andLoop_nil_ok (f : Nat) (n t : ExprNode) (rem : List Tok)
    (h : parseStep f (.andLoop n) [] = .ok (t, rem)) : t = n ∧ rem = [] := by
  cases f with
  | zero => simp [parseStep_zero] at h
  | succ f =>
      rw [parseStep_andLoop_nil] at h
      simp only [Except.ok.injEq, Prod.mk.injEq] at h
      exact ⟨h.1.symm, h.2.symm⟩

/-- Running any parser mode on `ts ++ extra` instead of `ts` leaves a
successful result intact and just carries `extra` through, provided that
when the parse consumed all of `ts` the next token of `extra` is not one of
the binary operators (which would re-enter a loop). -/
theorem parseStep_append_extra (f : Nat) :
    ∀ (m : PMode) (ts : List Tok) (t : ExprNode) (rem extra : List Tok),
      parseStep f m ts = .ok (t, rem) →
      (rem = [] → ∀ e es, extra = e :: es → e ≠ orTok ∧ e ≠ andTok) →
      parseStep f m (ts ++ extra) = .ok (t, rem ++ extra) := by
  induction f with
  | zero =>
      intro m ts t rem extra h _
      simp [parseStep_zero] at h
  | succ f ih =>
      intro m ts t rem extra h hcond
      cases m with
      | or =>
          rw [parseStep_or] at h
          cases heq : parseStep f .and ts with
          | error e => rw [heq] at h; simp at h
          | ok nr =>
              obtain ⟨n, r⟩ := nr
              rw [heq] at h
              have hand : parseStep f .and (ts ++ extra) = .ok (n, r ++ extra) := by
                apply ih .and ts n r extra heq
                intro hr e es hex
                subst hr
                exact hcond (parseStep_orLoop_nil_ok f n t rem h).2 e es hex
              have hloop := ih (.orLoop n) r t rem extra h hcond
              rw [parseStep_or, hand]
              exact hloop
      | orLoop n =>
          cases ts with
          | nil =>
              obtain ⟨rfl, rfl⟩ := parseStep_orLoop_nil_ok (f + 1) n t rem h
              cases extra with
              | nil => exact h
              | cons e es =>
                  have he := hcond rfl e es rfl
                  simp only [List.nil_append]
                  rw [parseStep_orLoop_cons, if_neg he.1]
          | cons t' r' =>
              rw [parseStep_orLoop_cons] at h
              by_cases ht : t' = orTok
              · rw [if_pos ht] at h
                cases heq : parseStep f .and r' with
                | error e => rw [heq] at h; simp at h
                | ok nr =>
                    obtain ⟨n', r''⟩ := nr
                    rw [heq] at h
                    have hand : parseStep f .and (r' ++ extra) =
                        .ok (n', r'' ++ extra) := by
                      apply ih .and r' n' r'' extra heq
                      intro hr e es hex
                      subst hr
                      exact hcond (parseStep_orLoop_nil_ok f _ t rem h).2 e es hex
                    have hloop := ih (.orLoop (.or n n')) r'' t rem extra h hcond
                    rw [List.cons_append, parseStep_orLoop_cons, if_pos ht, hand]
                    exact hloop
              · rw [if_neg ht] at h
                simp only [Except.ok.injEq, Prod.mk.injEq] at h
                obtain ⟨rfl, rfl⟩ := h
                rw [List.cons_append, parseStep_orLoop_cons, if_neg ht]
      | and =>
          rw [parseStep_and] at h
          cases heq : parseStep f .not ts with
          | error e => rw [heq] at h; simp at h
          | ok nr =>
              obtain ⟨n, r⟩ := nr
              rw [heq] at h
              have hnot : parseStep f .not (ts ++ extra) = .ok (n, r ++ extra) := by
                apply ih .not ts n r extra heq
                intro hr e es hex
                subst hr
                exact hcond (parseStep_andLoop_nil_ok f n t rem h).2 e es hex
              have hloop := ih (.andLoop n) r t rem extra h hcond
              rw [parseStep_and, hnot]
              exact hloop
      | andLoop n =>
          cases ts with
          | nil =>
              obtain ⟨rfl, rfl⟩ := parseStep_andLoop_nil_ok (f + 1) n t rem h
              cases extra with
              | nil => exact h
              | cons e es =>
                  have he := hcond rfl e es rfl
                  simp only [List.nil_append]
                  rw [parseStep_andLoop_cons, if_neg he.2]
          | cons t' r' =>
              rw [parseStep_andLoop_cons] at h
              by_cases ht : t' = andTok
              · rw [if_pos ht] at h
                cases heq : parseStep f .not r' with
                | error e => rw [heq] at h; simp at h
                | ok nr =>
                    obtain ⟨n', r''⟩ := nr
                    rw [heq] at h
                    have hnot : parseStep f .not (r' ++ extra) =
                        .ok (n', r'' ++ extra) := by
                      apply ih .not r' n' r'' extra heq
                      intro hr e es hex
                      subst hr
                      exact hcond (parseStep_andLoop_nil_ok f _ t rem h).2 e es hex
                    have hloop := ih (.andLoop (.and n n')) r'' t rem extra h hcond
                    rw [List.cons_append, parseStep_andLoop_cons, if_pos ht, hnot]
                    exact hloop
              · rw [if_neg ht] at h
                simp only [Except.ok.injEq, Prod.mk.injEq] at h
                obtain ⟨rfl, rfl⟩ := h
                rw [List.cons_append, parseStep_andLoop_cons, if_neg ht]
      | not =>
          cases ts with
          | nil =>
              rw [parseStep_not_nil] at h
              cases f with
              | zero => simp [parseStep_zero] at h
              | succ f' => rw [parseStep_primary_nil] at h; simp at h
          | cons t' r =>
              rw [parseStep_not_cons] at h
              by_cases ht : t' = bangTok
              · rw [if_pos ht] at h
                cases heq : parseStep f .not r with
                | error e => rw [heq] at h; simp at h
                | ok nr =>
                    obtain ⟨n, r₁⟩ := nr
                    rw [heq] at h
                    simp only [Except.ok.injEq, Prod.mk.injEq] at h
                    obtain ⟨rfl, rfl⟩ := h
                    have hnot := ih .not r n r₁ extra heq hcond
                    rw [List.cons_append, parseStep_not_cons, if_pos ht, hnot]
              · rw [if_neg ht] at h
                have hpr := ih .primary (t' :: r) t rem extra h hcond
                rw [List.cons_append, parseStep_not_cons, if_neg ht]
                rw [List.cons_append] at hpr
                exact hpr
      | primary =>
          cases ts with
          | nil => rw [parseStep_primary_nil] at h; simp at h
          | cons t' r =>
              rw [parseStep_primary_cons] at h
              by_cases ht : t' = lparenTok
              · rw [if_pos ht] at h
                cases heq : parseStep f .or r with
                | error e => rw [heq] at h; simp at h
                | ok nr => rw [heq] at h; simp at h
              · rw [if_neg ht] at h
                simp only [Except.ok.injEq, Prod.mk.injEq] at h
                obtain ⟨rfl, rfl⟩ := h
                rw [List.cons_append, parseStep_primary_cons, if_neg ht]

/-! ## Claims -/

/-- **C1.** The spec claims wrapping an expression in parentheses is
semantically the identity (`parse("(A)")` evaluates like `parse("A")`).  In
the code every parenthesized expression aborts instead: `_parse_primary`
calls `self._expect(')')`, an attribute the class never defines, so parsing
`"(A)"` — and the parenthesized expression exercised by the repository's own
test suite — raises `AttributeError`, while `"A"` parses to a keyword node.
This evaluates the code at the failing inputs. -/
theorem paren_roundtrip_hits_missing_expect :
    parseExprString "(A)".data = .error (.attributeError missingExpectMsg) ∧
    parseExprString "A".data = .ok (.keyword ['A']) ∧
    parseExprString "(Linux || warning)".data =
      .error (.attributeError missingExpectMsg) := ⟨rfl, rfl, rfl⟩

/-- **C2.** The spec claims `parse("(A")` fails with
`ParseError("expected ')'")`.  The code reaches the close-parenthesis check
through the undefined `_expect` attribute, so the failure is an
`AttributeError`, not the `ValueError` that plays the role of `ParseError`
in this program. -/
theorem unclosed_paren_raises_attribute_error :
    parseExprString "(A".data = .error (.attributeError missingExpectMsg) ∧
    ∀ msg, parseExprString "(A".data ≠ .error (.valueError msg) := by
  refine ⟨rfl, ?_⟩
  intro msg h
  have h2 : (Except.error (PyError.attributeError missingExpectMsg) :
      Except PyError ExprNode) = .error (.valueError msg) :=
    Eq.trans (by rfl) h
  simp at h2

/-- **C3.** Semantics of the four node types: a keyword node is substring
containment of the keyword in the line (containment of the lowercased
keyword in the lowercased line when `ignore_case`), and the `And`/`Or`/`Not`
nodes are pointwise conjunction, disjunction and negation of their
children, for every line and case flag. -/
theorem evaluate_node_semantics (k L : List Char) (c : Bool) (a b : ExprNode) :
    ((ExprNode.keyword k).evaluate L false = true ↔ k <:+: L) ∧
    ((ExprNode.keyword k).evaluate L true = true ↔ pyLower k <:+: pyLower L) ∧
    (ExprNode.and a b).evaluate L c = (a.evaluate L c && b.evaluate L c) ∧
    (ExprNode.or a b).evaluate L c = (a.evaluate L c || b.evaluate L c) ∧
    (ExprNode.not a).evaluate L c = (!a.evaluate L c) := by
  refine ⟨?_, ?_, rfl, rfl, rfl⟩
  · simp [ExprNode.evaluate, pyContains_iff_infix]
  · simp [ExprNode.evaluate, pyContains_iff_infix]

/-- **C4.** Operator precedence: when an expression string tokenizes to
`A || B && C` with keyword tokens `A`, `B`, `C`, the parser produces
`Or(Keyword A, And(Keyword B, Keyword C))` — `&&` binds tighter than `||` —
and that tree evaluates as the corresponding boolean combination on every
line and case flag. -/
theorem precedence_and_binds_tighter (s A B C : List Char)
    (htok : tokenizeExpr s = [A, orTok, B, andTok, C])
    (hA1 : A ≠ bangTok) (hA2 : A ≠ lparenTok)
    (hB1 : B ≠ bangTok) (hB2 : B ≠ lparenTok)
    (hC1 : C ≠ bangTok) (hC2 : C ≠ lparenTok) :
    parseExprString s =
      .ok (.or (.keyword A) (.and (.keyword B) (.keyword C))) ∧
    ∀ L ic,
      (ExprNode.or (.keyword A) (.and (.keyword B) (.keyword C))).evaluate L ic =
        ((ExprNode.keyword A).evaluate L ic ||
          ((ExprNode.keyword B).evaluate L ic &&
            (ExprNode.keyword C).evaluate L ic)) := by
  constructor
  · unfold parseExprString
    rw [htok]
    simp only [parseToks, parseFuel, List.length_cons, List.length_nil]
    norm_num
    simp only [parseStep_or, parseStep_and, parseStep_not_cons,
      parseStep_not_nil, parseStep_primary_cons, parseStep_orLoop_cons,
      parseStep_orLoop_nil, parseStep_andLoop_cons, parseStep_andLoop_nil,
      if_neg hA1, if_neg hA2, if_neg hB1, if_neg hB2, if_neg hC1, if_neg hC2,
      if_neg orTok_ne_andTok, if_pos rfl]
    simp [parseStep_orLoop_nil, parseStep_andLoop_nil]
  · intro L ic
    rfl

/-- Witness for C4 at the concrete expression `"x || y && z"`. -/
theorem precedence_and_binds_tighter_witness :
    parseExprString "x || y && z".data =
      .ok (.or (.keyword ['x']) (.and (.keyword ['y']) (.keyword ['z']))) :=
  (precedence_and_binds_tighter "x || y && z".data ['x'] ['y'] ['z'] rfl
    (by decide) (by decide) (by decide) (by decide) (by decide) (by decide)).1

/-- **C5 counterexample.** The claim says a match returns the line with
exactly its trailing line-terminator characters stripped and nothing else
removed.  On the line `"a "` (trailing space, no terminator) the code
returns `"a"` — `line.rstrip()` also removes the space — while the claimed
result is `"a "` unchanged. -/
theorem match_line_strips_spaces_counterexample :
    matchLineExpr [.keyword ['a']] false ['a', ' '] = some ['a'] ∧
    specStripLineTerminators ['a', ' '] = ['a', ' '] ∧
    (['a'] : List Char) ≠ ['a', ' '] := ⟨rfl, rfl, by decide⟩

/-- **C5 amended.** `match_line` evaluates the compiled trees in list order
and, as soon as one evaluates true, returns the line with all its trailing
whitespace characters stripped (`str.rstrip()`), and nothing before that
whitespace suffix removed; it returns no match iff every tree evaluates
false. -/
theorem match_line_first_match_rstrip (trees : List ExprNode) (ic : Bool)
    (line : List Char) :
    (matchLineExpr trees ic line =
      if trees.any (fun t => t.evaluate line ic) then some (pyRstrip line)
      else none) ∧
    (∃ ws, line = pyRstrip line ++ ws ∧ ∀ c ∈ ws, isPySpace c = true) ∧
    (∀ c, (pyRstrip line).getLast? = some c → isPySpace c = false) :=
  ⟨matchLineExpr_eq_if trees ic line,
    ⟨_, pyRstrip_append_ws line, pyRstrip_ws_all_space line⟩,
    pyRstrip_getLast_not_space line⟩

/-- Witness for C5 on the line `"xa "`. -/
theorem match_line_first_match_rstrip_witness : isPySpace 'a' = false :=
  (match_line_first_match_rstrip [.keyword ['a']] false ['x', 'a', ' ']).2.2
    'a' rfl

/-- **C6 counterexample.** The claim says an operator token in a keyword
position (e.g. `"&& && x"`) makes the parser raise; in fact
`_parse_primary` consumes the leading `&&` as a keyword and the parse
succeeds with `And(Keyword("&&"), Keyword("x"))`. -/
theorem operator_as_keyword_counterexample :
    parseExprString "&& && x".data =
      .ok (.and (.keyword ['&', '&']) (.keyword ['x'])) := rfl

/-- **C6 amended.** `_parse_primary` consumes any token other than `(` —
operator tokens included — as a keyword; the only missing-keyword error is
`ValueError("Unexpected end of expression")` when the cursor is exhausted,
as for the trailing operator in `"x &&"`. -/
theorem primary_consumes_any_non_paren_token (f : Nat) (t : Tok)
    (r : List Tok) (h : t ≠ lparenTok) :
    parseStep (f + 1) .primary (t :: r) = .ok (.keyword t, r) ∧
    parseStep (f + 1) .primary [] = .error (.valueError unexpectedEndMsg) ∧
    parseExprString "x &&".data = .error (.valueError unexpectedEndMsg) := by
  refine ⟨?_, rfl, rfl⟩
  rw [parseStep_primary_cons, if_neg h]

/-- Witness for C6: the `&&` token is consumed as a keyword. -/
theorem primary_consumes_any_non_paren_token_witness :
    parseStep 1 .primary [andTok, ['x']] = .ok (.keyword andTok, [['x']]) :=
  (primary_consumes_any_non_paren_token 0 andTok [['x']] (by decide)).1

/-- **C7 counterexample.** The claim reads "whole-word" as not adjacent to
an *alphanumeric* character, so an occurrence of `AND` followed by an
underscore would be replaced.  Python's `\b` also treats `_` as a word
character: `"AND_x"` is left untouched (one keyword token), not rewritten
to `&&` (which would tokenize as `["&&", "_x"]`). -/
theorem underscore_blocks_word_replacement_counterexample :
    tokenizeExpr "AND_x".data = [['A', 'N', 'D', '_', 'x']] ∧
    Char.isAlphanum '_' = false ∧
    tokenizeExpr "AND_x".data ≠ [andTok, ['_', 'x']] := ⟨rfl, rfl, by decide⟩

/-- **C7 amended.** The tokenizer replaces exactly the whole-word,
case-insensitive occurrences of `AND`/`OR`/`NOT` with `&&`/`||`/`!`, where
"whole-word" means not adjacent to a *word* character (alphanumeric or
underscore): a match with both boundaries free is rewritten, a following or
preceding word character (underscore included) blocks it — so `ANDROID` and
`AND_x` are untouched while occurrences bounded by spaces, parentheses or
the ends of the string are replaced. -/
theorem word_operator_replacement (prev : Option Char) (rest : List Char)
    (c1 c2 c3 w : Char) :
    (prevOk prev = true → nextOk rest = true → c1.toLower = 'a' →
      c2.toLower = 'n' → c3.toLower = 'd' →
      replAndAux prev (c1 :: c2 :: c3 :: rest) =
        '&' :: '&' :: replAndAux (some c3) rest) ∧
    (isWordChar w = true →
      replAndAux prev (c1 :: c2 :: c3 :: w :: rest) =
        c1 :: replAndAux (some c1) (c2 :: c3 :: w :: rest)) ∧
    (isWordChar w = true →
      replAndAux (some w) (c1 :: c2 :: c3 :: rest) =
        c1 :: replAndAux (some c1) (c2 :: c3 :: rest)) ∧
    tokenizeExpr "x AND y".data = [['x'], andTok, ['y']] ∧
    tokenizeExpr "x and y".data = [['x'], andTok, ['y']] ∧
    tokenizeExpr "a OR b".data = [['a'], orTok, ['b']] ∧
    tokenizeExpr "NOT b".data = [bangTok, ['b']] ∧
    tokenizeExpr "(AND)".data = [['('], andTok, [')']] ∧
    tokenizeExpr "ANDROID AND x".data =
      [['A', 'N', 'D', 'R', 'O', 'I', 'D'], andTok, ['x']] := by
  refine ⟨?_, ?_, ?_, rfl, rfl, rfl, rfl, rfl, rfl⟩
  · intro hprev hnext h1 h2 h3
    simp [replAndAux, hprev, hnext, h1, h2, h3]
  · intro hw
    simp [replAndAux, nextOk, hw]
  · intro hw
    simp [replAndAux, prevOk, hw]

/-- Witness for C7: a mixed-case `aNd` bounded by a space and end of input
is rewritten. -/
theorem word_operator_replacement_witness :
    replAndAux (some ' ') ['a', 'N', 'd'] = ['&', '&'] :=
  (word_operator_replacement (some ' ') [] 'a' 'N' 'd' '_').1 rfl rfl rfl rfl
    rfl

/-- **C8.** `MatcherRegex` hands the `|`-joined, parenthesized pattern list
to the engine inside `__init__`: compilation failure surfaces at
construction as a `PatternError` that carries the combined pattern (of
which every supplied pattern, in particular the invalid one, is a
substring), and never at match time; for a successfully constructed
matcher, `match_line` returns the trimmed line exactly when the compiled
alternation matches anywhere in the line (unanchored), and no match exactly
otherwise. -/
theorem regex_matcher_compiles_at_construction (pats : List (List Char)) :
    (∀ e, reCompile (combinedPattern pats) = .error e →
      matcherRegexInit pats = .error ⟨e, combinedPattern pats⟩) ∧
    (∀ r, reCompile (combinedPattern pats) = .ok r →
      matcherRegexInit pats = .ok ⟨r, combinedPattern pats⟩) ∧
    (∀ pe, matcherRegexInit pats = .error pe →
      pe.pattern = combinedPattern pats ∧ ∀ p ∈ pats, p <:+: pe.pattern) ∧
    (∀ m, matcherRegexInit pats = .ok m → ∀ line,
      (m.matchLine line = some (pyRstrip line) ↔
        ∃ s', s' <:+ line ∧ m.pattern.matchCont s' (fun _ => true) = true) ∧
      (m.matchLine line = none ↔
        ¬∃ s', s' <:+ line ∧ m.pattern.matchCont s' (fun _ => true) = true)) := by
  refine ⟨?_, ?_, ?_, ?_⟩
  · intro e h; unfold matcherRegexInit; rw [h]
  · intro r h; unfold matcherRegexInit; rw [h]
  · intro pe h
    unfold matcherRegexInit at h
    cases hc : reCompile (combinedPattern pats) with
    | error e =>
        rw [hc] at h
        simp only [Except.error.injEq] at h
        subst h
        exact ⟨rfl, fun p hp => mem_infix_combinedPattern pats p hp⟩
    | ok r => rw [hc] at h; simp at h
  · intro m _ line
    by_cases hs : reSearch m.pattern line = true
    · have hsem := (reSearch_iff_suffix m.pattern line).mp hs
      simp [MatcherRegex.matchLine, hs, hsem]
    · have hsem : ¬∃ s', s' <:+ line ∧
          m.pattern.matchCont s' (fun _ => true) = true := by
        intro hex
        exact hs ((reSearch_iff_suffix m.pattern line).mpr hex)
      simp [MatcherRegex.matchLine, hs, hsem]

/-- Witness for C8: the malformed pattern `"("` fails at construction and
is contained in the pattern the error names. -/
theorem regex_matcher_compiles_at_construction_witness :
    (['('] : List Char) <:+: ['(', '(', ')'] :=
  ((regex_matcher_compiles_at_construction [['(']]).2.2.1
    ⟨.missingParen, ['(', '(', ')']⟩ rfl).2 ['('] (by simp)

/-- **C9.** The empty expression string tokenizes to the empty token
sequence, and parsing it raises the parse error
`ValueError("Unexpected end of expression")` (the program's `ParseError`)
rather than returning a tree. -/
theorem empty_expression_parse_error :
    tokenizeExpr [] = [] ∧
    parseExprString [] = .error (.valueError unexpectedEndMsg) := ⟨rfl, rfl⟩

/-- **C10.** `parse` never requires the cursor to reach the end of the
token sequence: whenever the leading tokens form a complete expression and
the next token is not a binary operator, the extra tokens are silently
ignored and the result is the tree of the leading expression. -/
theorem parse_ignores_trailing_tokens (ts extra : List Tok) (t : ExprNode)
    (h : parseStep (parseFuel (ts ++ extra)) .or ts = .ok (t, []))
    (hextra : ∀ e es, extra = e :: es → e ≠ orTok ∧ e ≠ andTok) :
    parseToks (ts ++ extra) = .ok t := by
  have hx := parseStep_append_extra (parseFuel (ts ++ extra)) .or ts t []
    extra h (fun _ => hextra)
  unfold parseToks
  rw [hx]

/-- Witness for C10 at `"A ) B"`: the tokens after the keyword `A` are
ignored. -/
theorem parse_ignores_trailing_tokens_witness :
    parseExprString "A ) B".data = .ok (.keyword ['A']) :=
  parse_ignores_trailing_tokens [['A']] [[')'], ['B']] (.keyword ['A']) rfl
    (by intro e es hex; cases hex; exact ⟨by decide, by decide⟩)

end LogParser
